import Mathlib

/- Shallow embedding of the Twitter-lists RSS plugin (src/plugin.ts).
   Lean String models a JS string over code points, Int models the JS
   numeric timestamp (milliseconds since the epoch), and the upstream
   network is passed in as explicit data: a per-list fetch outcome
   (none models a fetch that threw) and an oracle for scraper.getTweet
   used by the thread-expansion step. -/

/-- Typed view of the configuration read through getConfig: the parsed
values of FILTER_RETWEETS, FILTER_REPLIES, MIN_TWEET_LENGTH,
MAX_RSS_ENTRIES and FETCH_TWEET_THREADS. MAX_TWEETS_PER_LIST is only
forwarded to the scraper call, whose outcome is already a parameter
here, so it does not appear. -/
structure Config where
  filterRetweets : Bool
  filterReplies : Bool
  minTweetLength : Nat
  maxEntries : Nat
  fetchThreads : Bool
deriving DecidableEq

/-- Non-recursive fields of the provider-shaped RawTweetData record.
Every field is optional, matching the loosely typed scraper payload.
retweetedStatus and quotedStatus are opaque passthrough payloads,
modelled by their presence. photos is the list of attachment URLs
(an absent photos array and an empty one both render as no media). -/
structure RawCore where
  id : Option String
  text : Option String
  username : Option String
  name : Option String
  isVerified : Option Bool
  timestamp : Option Int
  isRetweet : Option Bool
  isReply : Option Bool
  inReplyToStatusId : Option String
  retweetedStatus : Option Unit
  quotedStatus : Option Unit
  photos : List String
  likes : Option Nat
  retweets : Option Nat
  replies : Option Nat
deriving DecidableEq

/-- RawTweetData: a RawCore plus the optional nested thread, which is
itself a sequence of RawTweetData (the recursion forces an inductive
rather than a structure). -/
inductive RawTweetData : Type where
  | mk (core : RawCore) (thread : Option (List RawTweetData))

/-- Field accessor for the non-recursive part of a RawTweetData. -/
def RawTweetData.core : RawTweetData → RawCore
  | .mk c _ => c

/-- Field accessor for the nested thread of a RawTweetData. -/
def RawTweetData.thread : RawTweetData → Option (List RawTweetData)
  | .mk _ th => th

/-- Non-recursive fields of the canonical TweetData record produced by
transformTweet. media keeps the attachment URLs; the metrics object is
always produced by transformTweet, so likes, retweets and replies are
plain fields here. -/
structure TweetCore where
  id : String
  text : String
  username : String
  name : String
  verified : Bool
  createdAt : Int
  url : String
  isRetweet : Bool
  isReply : Bool
  replyToTweetId : Option String
  retweetedTweet : Option Unit
  quotedTweet : Option Unit
  media : List String
  likes : Nat
  retweets : Nat
  replies : Nat
deriving DecidableEq

/-- TweetData: a TweetCore plus the optional normalized thread. -/
inductive TweetData : Type where
  | mk (core : TweetCore) (thread : Option (List TweetData))

/-- Field accessor for the non-recursive part of a TweetData. -/
def TweetData.core : TweetData → TweetCore
  | .mk c _ => c

/-- Field accessor for the normalized thread of a TweetData. -/
def TweetData.thread : TweetData → Option (List TweetData)
  | .mk _ th => th

/-- JS string-or-default: `raw || fallback` on a string field, where an
absent field and the empty string are both falsy. -/
def strOr (o : Option String) (d : String) : String :=
  match o with
  | none => d
  | some s => if s == "" then d else s

/-- JS number-or-default: `raw || fallback` on a numeric field, where
an absent field and the number 0 are both falsy. -/
def intOr (o : Option Int) (d : Int) : Int :=
  match o with
  | none => d
  | some n => if n == 0 then d else n

/-- JS truthiness of tweet.id: present and non-empty. -/
def rawIdOk (r : RawTweetData) : Bool :=
  match r.core.id with
  | none => false
  | some i => i != ""

/-- The identifier of a raw tweet (meaningful when rawIdOk holds). -/
def rawId (r : RawTweetData) : String :=
  r.core.id.getD ""

/-- The TweetCore built by transformTweet for a raw tweet with core c
and identifier i, at ingestion instant now (Date.now()). Mirrors the
object literal of transformTweet in src/plugin.ts lines 373-397. -/
def mkCore (now : Int) (c : RawCore) (i : String) : TweetCore :=
  { id := i
    text := c.text.getD ""
    username := strOr c.username "unknown"
    name := strOr c.name "Unknown User"
    verified := c.isVerified.getD false
    createdAt := intOr c.timestamp now
    url := "https://twitter.com/" ++ strOr c.username "unknown" ++ "/status/" ++ i
    isRetweet := c.isRetweet.getD false
    isReply := c.isReply.getD false
    replyToTweetId := c.inReplyToStatusId
    retweetedTweet := c.retweetedStatus
    quotedTweet := c.quotedStatus
    media := c.photos
    likes := c.likes.getD 0
    retweets := c.retweets.getD 0
    replies := c.replies.getD 0 }

mutual

/-- TwitterRSSService.transformTweet. Throws (Except.error) when the
id is absent or empty, otherwise builds the canonical record; a nested
thread is normalized recursively, and an error thrown by a thread
entry propagates to the caller exactly as the exception escapes the
thread.map callback in the source. -/
def transformTweet (now : Int) : RawTweetData → Except String TweetData
  | .mk c th =>
    match c.id with
    | none => .error "Tweet missing required ID field"
    | some i =>
      if i == "" then .error "Tweet missing required ID field"
      else
        match th with
        | none => .ok (.mk (mkCore now c i) none)
        | some l =>
          match transformThreadList now l with
          | .error e => .error e
          | .ok ts => .ok (.mk (mkCore now c i) (some ts))

/-- Sequential normalization of a list of raw tweets with exception
propagation: the semantics of list.map(transformTweet) in JS, where
the first thrown error aborts the whole traversal. -/
def transformThreadList (now : Int) : List RawTweetData → Except String (List TweetData)
  | [] => .ok []
  | r :: rs =>
    match transformTweet now r with
    | .error e => .error e
    | .ok t =>
      match transformThreadList now rs with
      | .error e => .error e
      | .ok ts => .ok (t :: ts)

end

/-- TwitterRSSService.applyFilters: the three short-circuit checks on
retweets, replies and minimum text length (src/plugin.ts 404-421). -/
def applyFilters (cfg : Config) (t : TweetData) : Bool :=
  if cfg.filterRetweets && t.core.isRetweet then false
  else if cfg.filterReplies && t.core.isReply then false
  else if t.core.text.length < cfg.minTweetLength then false
  else true

/-- The pre-filter predicate of fetchListTweets (line 337-340): the
tweet is non-null with a truthy id that is not yet in
processedTweetIds. -/
def unseenWithId (store : List String) (r : RawTweetData) : Bool :=
  rawIdOk r && !(store.contains (rawId r))

/-- The thread-expansion step for one tweet: scraper.getTweet is the
oracle g; some th means the call succeeded and returned an array
thread, which overwrites the tweet.thread field; none means the call
threw (caught and logged) or returned no array thread, leaving the
tweet unchanged. -/
def expandThread (g : String → Option (List RawTweetData)) (r : RawTweetData) : RawTweetData :=
  match g (rawId r) with
  | some th => .mk r.core (some th)
  | none => r

/-- The list the normalizer runs on inside fetchListTweets: the
pre-filtered tweets, thread-expanded when FETCH_TWEET_THREADS is set. -/
def expandedList (cfg : Config) (g : String → Option (List RawTweetData))
    (filtered : List RawTweetData) : List RawTweetData :=
  if cfg.fetchThreads then filtered.map (expandThread g) else filtered

/-- The tail of fetchListTweets after normalization: a thrown
normalization error is swallowed by the catch (empty result), a
successful batch goes through applyFilters. -/
def keptOrEmpty (cfg : Config) (res : Except String (List TweetData)) : List TweetData :=
  match res with
  | .error _ => []
  | .ok ts => ts.filter (applyFilters cfg)

/-- TwitterRSSService.fetchListTweets (src/plugin.ts 330-365). The
upstream call outcome is the parameter fetched: none models a thrown
scraper.fetchListTweets (the catch returns []); some tweets is the raw
payload. A normalization error thrown inside the map is caught by the
same catch, also yielding []. -/
def fetchListTweets (cfg : Config) (now : Int) (g : String → Option (List RawTweetData))
    (store : List String) (fetched : Option (List RawTweetData)) : List TweetData :=
  match fetched with
  | none => []
  | some tweets =>
    keptOrEmpty cfg (transformThreadList now (expandedList cfg g (tweets.filter (unseenWithId store))))

/-- Set.add on the processedTweetIds set, modelled as a duplicate-free
insertion into a list of identifiers. -/
def addId (s : List String) (i : String) : List String :=
  if s.contains i then s else s ++ [i]

/-- The per-list marking step: tweets.forEach(t => processedTweetIds.add(t.id)). -/
def addIds (s : List String) (ts : List TweetData) : List String :=
  ts.foldl (fun acc t => addId acc t.core.id) s

/-- The per-list loop of processAllLists (lines 541-557): for each
configured list, fetch (errors already absorbed inside
fetchListTweets), accumulate the returned tweets, and mark their
identifiers into the dedup store before moving to the next list. The
2-second inter-list delay is real time and not modelled. Returns the
accumulated tweets in accumulation order and the final store. -/
def runLists (cfg : Config) (now : Int) (g : String → Option (List RawTweetData)) :
    List String → List (Option (List RawTweetData)) → List TweetData × List String
  | store, [] => ([], store)
  | store, l :: rest =>
    let tweets := fetchListTweets cfg now g store l
    let p := runLists cfg now g (addIds store tweets) rest
    (tweets ++ p.1, p.2)

/-- Stable insertion of x into a list sorted by descending createdAt:
x moves past exactly the elements with strictly greater timestamp, so
elements with equal timestamps keep their input order. -/
def insertByTime (x : TweetData) : List TweetData → List TweetData
  | [] => [x]
  | y :: ys =>
    if y.core.createdAt ≤ x.core.createdAt then x :: y :: ys
    else y :: insertByTime x ys

/-- allTweets.sort((a, b) => b.createdAt.getTime() - a.createdAt.getTime()):
the ECMAScript stable sort with this comparator, i.e. the stable
descending sort by creation timestamp, realized as insertion sort. -/
def sortByTimeDesc (l : List TweetData) : List TweetData :=
  l.foldr insertByTime []

/-- tweet.text.substring(0, 100), over code points. -/
def truncate100 (s : String) : String :=
  String.mk (s.data.take 100)

/-- The rendered title of transformToRSSItem (line 459): author handle
plus the body truncated to 100 characters, with a three-character
ellipsis marker when the body was longer. -/
def rssTitle (t : TweetData) : String :=
  "@" ++ t.core.username ++ ": " ++ truncate100 t.core.text ++
    (if t.core.text.length > 100 then "..." else "")

/-- One line of the rendered thread transcript. -/
def threadLine (t : TweetData) : String :=
  "@" ++ t.core.username ++ ": " ++ t.core.text

/-- The rendered description of transformToRSSItem (lines 441-456):
body, optional media count, engagement summary (the metrics object is
always present on a transformed tweet), optional thread transcript. -/
def rssDescription (t : TweetData) : String :=
  let d1 := t.core.text
  let d2 :=
    if t.core.media.length > 0 then
      d1 ++ "\n\nMedia: " ++ toString t.core.media.length ++ " attachment(s)"
    else d1
  let d3 := d2 ++ "\n\n❤️ " ++ toString t.core.likes ++ " | 🔄 " ++
    toString t.core.retweets ++ " | 💬 " ++ toString t.core.replies
  match t.thread with
  | some th =>
    if th.length > 0 then
      d3 ++ "\n\nThread:\n" ++ String.intercalate "\n" (th.map threadLine)
    else d3
  | none => d3

/-- A rendered feed item. pubDate keeps the underlying instant (the
RFC-822 rendering of toUTCString is injective on instants and is
abstracted away). -/
structure RSSItem where
  title : String
  description : String
  link : String
  pubDate : Int
  guid : String
  author : String
  category : List String
deriving DecidableEq

/-- TwitterRSSService.transformToRSSItem (src/plugin.ts 440-471). -/
def transformToRSSItem (t : TweetData) : RSSItem :=
  { title := rssTitle t
    description := rssDescription t
    link := t.core.url
    pubDate := t.core.createdAt
    guid := t.core.id
    author := t.core.name ++ " (@" ++ t.core.username ++ ")"
    category :=
      if t.core.isRetweet then ["retweet"]
      else if t.core.isReply then ["reply"]
      else ["tweet"] }

/-- The mutable service state touched by a pass: the login flag, the
processedTweetIds dedup set, and the feed store (the single XML slot
written by saveRSSFeed, abstracted to the ordered item list the XML is
built from). -/
structure ServiceState where
  isLoggedIn : Bool
  processedTweetIds : List String
  savedFeed : Option (List RSSItem)
deriving DecidableEq

/-- The value resolved by processAllLists: totalTweets and the feed
content standing in for the written rssPath. -/
structure PassResult where
  totalTweets : Nat
  feedItems : List RSSItem
deriving DecidableEq

/-- TwitterRSSService.processAllLists (src/plugin.ts 526-575): reject
when not authenticated, run the per-list loop, sort descending by
creation time, cap to MAX_RSS_ENTRIES, render and persist the feed and
the dedup snapshot. Returns the state after the call together with the
thrown error or resolved value. -/
def processAllLists (cfg : Config) (now : Int) (g : String → Option (List RawTweetData))
    (st : ServiceState) (lists : List (Option (List RawTweetData))) :
    ServiceState × Except String PassResult :=
  if st.isLoggedIn = false then
    (st, .error "Twitter authentication required. Please check credentials and try again.")
  else
    let p := runLists cfg now g st.processedTweetIds lists
    let limited := (sortByTimeDesc p.1).take cfg.maxEntries
    let items := limited.map transformToRSSItem
    ({ isLoggedIn := st.isLoggedIn, processedTweetIds := p.2, savedFeed := some items },
     .ok { totalTweets := limited.length, feedItems := items })

/-- An incoming HTTP request as seen by the access-control middleware. -/
structure HttpRequest where
  path : String
  authorization : Option String
deriving DecidableEq

/-- Outcome of the middleware: pass the request on, or answer it with
the given status code. -/
inductive GateResult where
  | next
  | unauthorized (status : Nat)
deriving DecidableEq

/-- First-occurrence replacement on character lists: the semantics of
JS String.replace when the pattern is a plain string. -/
def lReplaceFirst : List Char → List Char → List Char → List Char
  | [], _, _ => []
  | c :: cs, pat, rep =>
    if pat.isPrefixOf (c :: cs) then rep ++ (c :: cs).drop pat.length
    else c :: lReplaceFirst cs pat rep

/-- auth.replace(pat, rep) in JS: only the first occurrence is replaced. -/
def replaceFirst (s pat rep : String) : String :=
  String.mk (lReplaceFirst s.data pat.data rep.data)

/-- The access gate of RSSServerService.setupMiddleware (src/plugin.ts
830-836): admit everything when no token is configured (an empty
configured token is falsy in the source and disables the gate as
well), or when the path is /health; otherwise strip the first
occurrence of the Bearer prefix from the Authorization header and
compare against the configured token, answering 401 on mismatch. -/
def gate (apiToken : Option String) (req : HttpRequest) : GateResult :=
  if apiToken.getD "" == "" || req.path == "/health" then .next
  else
    let auth := req.authorization.getD ""
    let token := replaceFirst auth "Bearer " ""
    if token == apiToken.getD "" then .next else .unauthorized 401

/-- The body of the /health route response (src/plugin.ts 946-951). -/
structure HealthResponse where
  status : String
  timestamp : Int
deriving DecidableEq

/-- GET /health handler: always healthy, with the current timestamp. -/
def healthHandler (now : Int) : HealthResponse :=
  { status := "healthy", timestamp := now }

/-- Spec-side filter predicate, written from the words of the spec:
keep unless reposts are excluded and the item is a repost, or replies
are excluded and the item is a reply, or the body is under the
configured minimum length; an order-independent disjunction, to be
compared with the short-circuiting applyFilters. -/
def shouldKeepSpec (cfg : Config) (t : TweetData) : Prop :=
  ¬ ((cfg.filterRetweets = true ∧ t.core.isRetweet = true) ∨
     (cfg.filterReplies = true ∧ t.core.isReply = true) ∨
     t.core.text.length < cfg.minTweetLength)

/-- Spec-side reading of an Authorization header carrying the matching
bearer token: the header is literally the Bearer scheme followed by
the configured token. -/
def carriesBearerToken (tok : String) (req : HttpRequest) : Prop :=
  req.authorization = some ("Bearer " ++ tok)

/-- Spec-side admission predicate of the access-control claim. -/
def gateSpecAdmits (tok : String) (req : HttpRequest) : Prop :=
  req.path = "/health" ∨ carriesBearerToken tok req

mutual

/-- Every node of this raw tweet, nested thread entries included,
carries a truthy identifier, so normalization cannot throw anywhere
inside it. -/
def validRaw : RawTweetData → Bool
  | .mk c none => rawIdOk (.mk c none)
  | .mk c (some l) => rawIdOk (.mk c (some l)) && validList l

/-- validRaw holding for each member of a list. -/
def validList : List RawTweetData → Bool
  | [] => true
  | r :: rs => validRaw r && validList rs

end

/-- The nested thread of this raw tweet, when present, consists of
fully valid entries; nothing is said about the top-level identifier. -/
def threadValid : RawTweetData → Bool
  | .mk _ none => true
  | .mk _ (some l) => validList l

/-- The element-level expansion actually applied inside
fetchListTweets: expandThread exactly when FETCH_TWEET_THREADS is
set. -/
def expandIf (cfg : Config) (g : String → Option (List RawTweetData))
    (r : RawTweetData) : RawTweetData :=
  if cfg.fetchThreads then expandThread g r else r

/-- Every raw tweet a pass can feed to the normalizer has a fully
valid nested thread after optional expansion: the hypothesis under
which no list of the pass hits the batch-aborting normalization
error. -/
def ValidLists (cfg : Config) (g : String → Option (List RawTweetData))
    (lists : List (Option (List RawTweetData))) : Prop :=
  ∀ o ∈ lists, ∀ raws, o = some raws →
    ∀ r ∈ raws, threadValid (expandIf cfg g r) = true

/-- A raw core with every optional field absent. -/
def emptyRawCore : RawCore :=
  { id := none, text := none, username := none, name := none, isVerified := none,
    timestamp := none, isRetweet := none, isReply := none, inReplyToStatusId := none,
    retweetedStatus := none, quotedStatus := none, photos := [], likes := none,
    retweets := none, replies := none }

/-- A plain raw tweet with identifier, text and timestamp only. -/
def simpleRaw (i : String) (txt : String) (ts : Int) : RawTweetData :=
  .mk { emptyRawCore with id := some i, text := some txt, timestamp := some ts } none

/-- The canonical record simpleRaw normalizes to (ingestion instant 0). -/
def simpleTw (i : String) (txt : String) (ts : Int) : TweetData :=
  .mk (mkCore 0 { emptyRawCore with id := some i, text := some txt, timestamp := some ts } i)
    none

/-- A thread oracle that always fails. -/
def gNone : String → Option (List RawTweetData) := fun _ => none

/-- Permissive configuration: no category filters, no minimum length,
500-entry cap, no thread expansion. -/
def cfgPlain : Config :=
  { filterRetweets := false, filterReplies := false, minTweetLength := 0,
    maxEntries := 500, fetchThreads := false }

/-- Permissive configuration with a 2-entry cap. -/
def cfgCapTwo : Config :=
  { filterRetweets := false, filterReplies := false, minTweetLength := 0,
    maxEntries := 2, fetchThreads := false }

/-- A raw tweet with a truthy identifier but an identifier-less nested
thread entry: its normalization throws. -/
def rawBadThread : RawTweetData :=
  .mk { emptyRawCore with id := some "b", text := some "bad thread parent", timestamp := some 20 }
    (some [.mk emptyRawCore none])

/-- A well-formed raw tweet sharing a list with rawBadThread. -/
def rawGoodC : RawTweetData := simpleRaw "c" "good tweet c" 10

/-- A well-formed raw tweet carrying the same identifier as
rawBadThread, placed in the second list. -/
def rawGoodB : RawTweetData := simpleRaw "b" "good tweet b" 20

/-- Two upstream lists: the first holds the batch-aborting pair, the
second the clean duplicate of b. -/
def listsPair : List (Option (List RawTweetData)) := [some [rawBadThread, rawGoodC], some [rawGoodB]]

/-- A service state that is authenticated with an empty dedup store
and an empty feed slot. -/
def stFresh : ServiceState := { isLoggedIn := true, processedTweetIds := [], savedFeed := none }

/-- The 104-character body used against the title-length bound. -/
def body104 : String := String.mk (List.replicate 104 'x')

/-- A 103-character body ending in three dots. -/
def body103 : String := String.mk (List.replicate 100 'x' ++ ['.', '.', '.'])

/-- A tweet by alice whose body is 104 characters long. -/
def tAlice104 : TweetData :=
  .mk (mkCore 0 { emptyRawCore with id := some "c4", text := some body104, username := some "alice" } "c4") none

/-- A tweet whose 103-character body ends in three dots. -/
def tDots103 : TweetData :=
  .mk (mkCore 0 { emptyRawCore with id := some "c4b", text := some body103 } "c4b") none

/-- Bridge between the Bool membership test of the dedup store and
propositional list membership. -/
theorem containsList_iff (s : List String) (i : String) :
    s.contains i = true ↔ i ∈ s := by
  simp [List.contains, List.elem_iff]

/-- Membership after one Set.add. -/
theorem mem_addId (s : List String) (j i : String) :
    i ∈ addId s j ↔ i ∈ s ∨ i = j := by
  unfold addId
  by_cases h : s.contains j = true
  · rw [if_pos h]
    have hj : j ∈ s := (containsList_iff s j).mp h
    constructor
    · exact Or.inl
    · rintro (hi | rfl)
      · exact hi
      · exact hj
  · rw [if_neg h]
    simp [List.mem_append]

/-- Membership after marking a batch of tweets as processed. -/
theorem mem_addIds (ts : List TweetData) :
    ∀ (s : List String) (i : String),
      i ∈ addIds s ts ↔ i ∈ s ∨ ∃ t ∈ ts, t.core.id = i := by
  induction ts with
  | nil => intro s i; simp [addIds]
  | cons t ts ih =>
    intro s i
    have h1 : addIds s (t :: ts) = addIds (addId s t.core.id) ts := rfl
    rw [h1, ih, mem_addId]
    constructor
    · rintro ((hs | rfl) | ⟨u, hu, hid⟩)
      · exact Or.inl hs
      · exact Or.inr ⟨t, List.mem_cons_self t ts, rfl⟩
      · exact Or.inr ⟨u, List.mem_cons_of_mem t hu, hid⟩
    · rintro (hs | ⟨u, hu, hid⟩)
      · exact Or.inl (Or.inl hs)
      · rcases List.mem_cons.mp hu with rfl | hu2
        · exact Or.inl (Or.inr hid.symm)
        · exact Or.inr ⟨u, hu2, hid⟩

/-- Frame property of one pass over the dedup store: after the
per-list loop, the store holds exactly the identifiers it held before
plus the identifiers of the tweets the loop accumulated. -/
theorem runLists_store_mem (cfg : Config) (now : Int)
    (g : String → Option (List RawTweetData)) (ls : List (Option (List RawTweetData))) :
    ∀ (s : List String) (i : String),
      i ∈ (runLists cfg now g s ls).2 ↔
        i ∈ s ∨ ∃ t ∈ (runLists cfg now g s ls).1, t.core.id = i := by
  induction ls with
  | nil => intro s i; simp [runLists]
  | cons l rest ih =>
    intro s i
    have e2 : (runLists cfg now g s (l :: rest)).2 =
        (runLists cfg now g (addIds s (fetchListTweets cfg now g s l)) rest).2 := rfl
    have e1 : (runLists cfg now g s (l :: rest)).1 =
        fetchListTweets cfg now g s l ++
          (runLists cfg now g (addIds s (fetchListTweets cfg now g s l)) rest).1 := rfl
    rw [e2, e1, ih, mem_addIds]
    constructor
    · rintro ((hs | ⟨t, ht, hid⟩) | ⟨t, ht, hid⟩)
      · exact Or.inl hs
      · exact Or.inr ⟨t, List.mem_append.mpr (Or.inl ht), hid⟩
      · exact Or.inr ⟨t, List.mem_append.mpr (Or.inr ht), hid⟩
    · rintro (hs | ⟨t, ht, hid⟩)
      · exact Or.inl (Or.inl hs)
      · rcases List.mem_append.mp ht with h1 | h2
        · exact Or.inl (Or.inr ⟨t, h1, hid⟩)
        · exact Or.inr ⟨t, h2, hid⟩

/-- The batch normalization succeeds exactly when it normalizes the
lists pointwise, in order. -/
theorem transformThreadList_eq_ok_iff (now : Int) :
    ∀ (l : List RawTweetData) (ts : List TweetData),
      transformThreadList now l = .ok ts ↔
        List.Forall₂ (fun r t => transformTweet now r = .ok t) l ts := by
  intro l
  induction l with
  | nil =>
    intro ts
    constructor
    · intro h
      cases ts with
      | nil => exact List.Forall₂.nil
      | cons t ts => simp [transformThreadList] at h
    · intro h
      cases h
      rfl
  | cons r rs ih =>
    intro ts
    constructor
    · intro h
      unfold transformThreadList at h
      cases hr : transformTweet now r with
      | error e => rw [hr] at h; simp at h
      | ok t =>
        rw [hr] at h
        cases hrs : transformThreadList now rs with
        | error e => rw [hrs] at h; simp at h
        | ok ts2 =>
          rw [hrs] at h
          injection h with h2
          subst h2
          exact List.Forall₂.cons hr ((ih ts2).mp hrs)
    · intro h
      cases h with
      | cons h1 h2 =>
        unfold transformThreadList
        rw [h1, (ih _).mpr h2]

/-- Unpacking one successful normalization step: the raw tweet had a
truthy identifier and the canonical record is the mkCore literal for
it. -/
theorem transformTweet_ok_elim (now : Int) (r : RawTweetData) (t : TweetData)
    (h : transformTweet now r = .ok t) :
    ∃ i, r.core.id = some i ∧ (i == "") = false ∧ t.core = mkCore now r.core i := by
  cases r with
  | mk c th =>
    unfold transformTweet at h
    split at h
    · simp at h
    · rename_i i hc
      split at h
      · simp at h
      · rename_i hi
        refine ⟨i, hc, by simpa using hi, ?_⟩
        split at h
        · injection h with h2
          subst h2
          rfl
        · split at h
          · simp at h
          · injection h with h2
            subst h2
            rfl

mutual

/-- When every node of the raw tweet carries a truthy identifier,
normalization succeeds. -/
theorem transformTweet_ok_of_validRaw (now : Int) :
    ∀ (r : RawTweetData), validRaw r = true → ∃ t, transformTweet now r = Except.ok t
  | .mk c none, h => by
    unfold validRaw at h
    unfold rawIdOk at h
    simp only [RawTweetData.core] at h
    cases hc : c.id with
    | none => rw [hc] at h; simp at h
    | some i =>
      rw [hc] at h
      simp at h
      refine ⟨.mk (mkCore now c i) none, ?_⟩
      unfold transformTweet
      rw [hc]
      simp [h]
  | .mk c (some l), h => by
    unfold validRaw at h
    rw [Bool.and_eq_true] at h
    obtain ⟨h1, h2⟩ := h
    obtain ⟨ts, hts⟩ := transformThreadList_ok_of_validList now l h2
    unfold rawIdOk at h1
    simp only [RawTweetData.core] at h1
    cases hc : c.id with
    | none => rw [hc] at h1; simp at h1
    | some i =>
      rw [hc] at h1
      simp at h1
      refine ⟨.mk (mkCore now c i) (some ts), ?_⟩
      unfold transformTweet
      rw [hc]
      simp [h1, hts]

/-- Pointwise version of the previous lemma for thread lists. -/
theorem transformThreadList_ok_of_validList (now : Int) :
    ∀ (l : List RawTweetData), validList l = true → ∃ ts, transformThreadList now l = Except.ok ts
  | [], _ => ⟨[], rfl⟩
  | r :: rs, h => by
    unfold validList at h
    rw [Bool.and_eq_true] at h
    obtain ⟨h1, h2⟩ := h
    obtain ⟨t, ht⟩ := transformTweet_ok_of_validRaw now r h1
    obtain ⟨ts, hts⟩ := transformThreadList_ok_of_validList now rs h2
    exact ⟨t :: ts, by unfold transformThreadList; rw [ht, hts]⟩

end

/-- Thread expansion never changes the non-recursive fields. -/
theorem expandThread_core (g : String → Option (List RawTweetData)) (r : RawTweetData) :
    (expandThread g r).core = r.core := by
  unfold expandThread
  split
  · rfl
  · rfl

/-- Conditional expansion never changes the non-recursive fields. -/
theorem expandIf_core (cfg : Config) (g : String → Option (List RawTweetData))
    (r : RawTweetData) : (expandIf cfg g r).core = r.core := by
  unfold expandIf
  split
  · exact expandThread_core g r
  · rfl

/-- The expansion stage is the elementwise conditional expansion. -/
theorem expandedList_eq_map (cfg : Config) (g : String → Option (List RawTweetData))
    (l : List RawTweetData) : expandedList cfg g l = l.map (expandIf cfg g) := by
  by_cases hft : cfg.fetchThreads = true
  · simp [expandedList, expandIf, hft]
  · have hf : cfg.fetchThreads = false := by simpa using hft
    have he : expandIf cfg g = fun r => r := by
      funext r
      unfold expandIf
      rw [hf]
      simp
    rw [he]
    simp [expandedList, hf]

/-- Right-to-left membership extraction along a Forall₂ relation. -/
theorem forall₂_mem_right {α β : Type} {R : α → β → Prop} :
    ∀ {l : List α} {ts : List β}, List.Forall₂ R l ts → ∀ t ∈ ts, ∃ r ∈ l, R r t := by
  intro l ts h
  induction h with
  | nil => intro t ht; simp at ht
  | cons h1 _ ih =>
    intro t ht
    rcases List.mem_cons.mp ht with rfl | ht2
    · exact ⟨_, List.mem_cons_self .., h1⟩
    · obtain ⟨r, hr, hR⟩ := ih t ht2
      exact ⟨r, List.mem_cons_of_mem _ hr, hR⟩

/-- Left-to-right membership extraction along a Forall₂ relation. -/
theorem forall₂_mem_left {α β : Type} {R : α → β → Prop} :
    ∀ {l : List α} {ts : List β}, List.Forall₂ R l ts → ∀ r ∈ l, ∃ t ∈ ts, R r t := by
  intro l ts h
  induction h with
  | nil => intro r hr; simp at hr
  | cons h1 _ ih =>
    intro r hr
    rcases List.mem_cons.mp hr with rfl | hr2
    · exact ⟨_, List.mem_cons_self .., h1⟩
    · obtain ⟨t, ht, hR⟩ := ih r hr2
      exact ⟨t, List.mem_cons_of_mem _ ht, hR⟩

/-- Unpacking the pre-filter predicate. -/
theorem unseenWithId_elim (store : List String) (r : RawTweetData)
    (h : unseenWithId store r = true) : rawIdOk r = true ∧ rawId r ∉ store := by
  unfold unseenWithId at h
  rw [Bool.and_eq_true] at h
  obtain ⟨h1, h2⟩ := h
  refine ⟨h1, fun hmem => ?_⟩
  rw [Bool.not_eq_true'] at h2
  rw [(containsList_iff store (rawId r)).mpr hmem] at h2
  simp at h2

/-- Building the pre-filter predicate. -/
theorem unseenWithId_intro (store : List String) (r : RawTweetData)
    (h1 : rawIdOk r = true) (h2 : rawId r ∉ store) : unseenWithId store r = true := by
  unfold unseenWithId
  rw [Bool.and_eq_true, h1]
  refine ⟨rfl, ?_⟩
  rw [Bool.not_eq_true']
  cases hc : store.contains (rawId r)
  · rfl
  · exact absurd ((containsList_iff store (rawId r)).mp hc) h2

/-- A successful normalization returns the raw identifier, which is
truthy. -/
theorem transformTweet_ok_id (now : Int) (r : RawTweetData) (t : TweetData)
    (h : transformTweet now r = .ok t) :
    t.core.id = rawId r ∧ rawIdOk r = true := by
  obtain ⟨i, hc, hi, hcore⟩ := transformTweet_ok_elim now r t h
  constructor
  · rw [hcore]
    unfold rawId
    rw [hc]
    rfl
  · unfold rawIdOk
    rw [hc]
    simpa using hi

/-- The filter outcome and the identifier of a normalized tweet do not
depend on the ingestion instant: only createdAt can differ between
normalizations of the same raw tweet at two different times. -/
theorem applyFilters_transform_indep (cfg : Config) (now1 now2 : Int) (r : RawTweetData)
    (t1 t2 : TweetData) (h1 : transformTweet now1 r = .ok t1)
    (h2 : transformTweet now2 r = .ok t2) :
    applyFilters cfg t1 = applyFilters cfg t2 ∧ t1.core.id = t2.core.id := by
  obtain ⟨i1, hc1, _, hcore1⟩ := transformTweet_ok_elim now1 r t1 h1
  obtain ⟨i2, hc2, _, hcore2⟩ := transformTweet_ok_elim now2 r t2 h2
  rw [hc1] at hc2
  injection hc2 with hii
  subst hii
  constructor
  · unfold applyFilters
    rw [hcore1, hcore2]
    rfl
  · rw [hcore1, hcore2]
    rfl

/-- Every tweet returned by fetchListTweets arises from a raw tweet of
the payload that passed the pre-filter, normalized after optional
expansion, and itself passed the configured filters. -/
theorem mem_fetchListTweets (cfg : Config) (now : Int)
    (g : String → Option (List RawTweetData)) (store : List String)
    (raws : List RawTweetData) (t : TweetData)
    (h : t ∈ fetchListTweets cfg now g store (some raws)) :
    ∃ r ∈ raws, unseenWithId store r = true ∧
      transformTweet now (expandIf cfg g r) = .ok t ∧ applyFilters cfg t = true := by
  have h2 : t ∈ keptOrEmpty cfg (transformThreadList now
      (expandedList cfg g (raws.filter (unseenWithId store)))) := h
  cases hm : transformThreadList now (expandedList cfg g (raws.filter (unseenWithId store))) with
  | error e => rw [hm] at h2; simp [keptOrEmpty] at h2
  | ok ts =>
    rw [hm] at h2
    rw [show keptOrEmpty cfg (Except.ok ts) = ts.filter (applyFilters cfg) from rfl] at h2
    obtain ⟨hts, hfil⟩ := List.mem_filter.mp h2
    have hfa := (transformThreadList_eq_ok_iff now _ ts).mp hm
    obtain ⟨e, he, hR⟩ := forall₂_mem_right hfa t hts
    rw [expandedList_eq_map] at he
    obtain ⟨r, hr, hre⟩ := List.mem_map.mp he
    obtain ⟨hrr, hru⟩ := List.mem_filter.mp hr
    subst hre
    exact ⟨r, hrr, hru, hR, hfil⟩

/-- Conversely, when the whole pre-filtered batch normalizes without
error, every pre-filtered raw tweet whose normalization passes the
configured filters contributes its tweet to the fetchListTweets
result. -/
theorem fetchListTweets_mem_of (cfg : Config) (now : Int)
    (g : String → Option (List RawTweetData)) (store : List String)
    (raws : List RawTweetData) (r : RawTweetData) (t : TweetData)
    (hr : r ∈ raws) (hu : unseenWithId store r = true)
    (hall : ∀ x ∈ expandedList cfg g (raws.filter (unseenWithId store)),
      validRaw x = true)
    (ht : transformTweet now (expandIf cfg g r) = .ok t)
    (hf : applyFilters cfg t = true) :
    t ∈ fetchListTweets cfg now g store (some raws) := by
  have hok : ∃ ts, transformThreadList now
      (expandedList cfg g (raws.filter (unseenWithId store))) = Except.ok ts := by
    have hv : validList (expandedList cfg g (raws.filter (unseenWithId store))) = true := by
      have : ∀ (xs : List RawTweetData), (∀ x ∈ xs, validRaw x = true) → validList xs = true := by
        intro xs
        induction xs with
        | nil => intro _; rfl
        | cons x xs ih =>
          intro hx
          unfold validList
          rw [Bool.and_eq_true]
          exact ⟨hx x (List.mem_cons_self ..), ih fun y hy => hx y (List.mem_cons_of_mem _ hy)⟩
      exact this _ hall
    exact transformThreadList_ok_of_validList now _ hv
  obtain ⟨ts, hm⟩ := hok
  show t ∈ keptOrEmpty cfg (transformThreadList now
    (expandedList cfg g (raws.filter (unseenWithId store))))
  rw [hm]
  rw [show keptOrEmpty cfg (Except.ok ts) = ts.filter (applyFilters cfg) from rfl]
  have hfa := (transformThreadList_eq_ok_iff now _ ts).mp hm
  have hemem : expandIf cfg g r ∈ expandedList cfg g (raws.filter (unseenWithId store)) := by
    rw [expandedList_eq_map]
    exact List.mem_map.mpr ⟨r, List.mem_filter.mpr ⟨hr, hu⟩, rfl⟩
  obtain ⟨t2, ht2, hRt2⟩ := forall₂_mem_left hfa _ hemem
  have he2 : t2 = t := by
    rw [ht] at hRt2
    injection hRt2 with e
    exact e.symm
  subst he2
  exact List.mem_filter.mpr ⟨ht2, hf⟩

/-- Inserting into the sorted prefix is a permutation of consing. -/
theorem insertByTime_perm (x : TweetData) :
    ∀ (l : List TweetData), List.Perm (insertByTime x l) (x :: l) := by
  intro l
  induction l with
  | nil => exact List.Perm.refl _
  | cons y ys ih =>
    unfold insertByTime
    split
    · exact List.Perm.refl _
    · exact List.Perm.trans (List.Perm.cons y ih) (List.Perm.swap x y ys)

/-- The stable descending sort permutes its input. -/
theorem sortByTimeDesc_perm (l : List TweetData) : List.Perm (sortByTimeDesc l) l := by
  induction l with
  | nil => exact List.Perm.refl _
  | cons x xs ih =>
    have e : sortByTimeDesc (x :: xs) = insertByTime x (sortByTimeDesc xs) := rfl
    rw [e]
    exact List.Perm.trans (insertByTime_perm x _) (List.Perm.cons x ih)

/-- Insertion preserves descending sortedness. -/
theorem insertByTime_pairwise (x : TweetData) :
    ∀ (l : List TweetData),
      l.Pairwise (fun a b => b.core.createdAt ≤ a.core.createdAt) →
      (insertByTime x l).Pairwise (fun a b => b.core.createdAt ≤ a.core.createdAt) := by
  intro l
  induction l with
  | nil => intro _; simp [insertByTime]
  | cons y ys ih =>
    intro hp
    rw [List.pairwise_cons] at hp
    obtain ⟨hy, hys⟩ := hp
    unfold insertByTime
    split
    · rename_i hxy
      rw [List.pairwise_cons]
      refine ⟨?_, ?_⟩
      · intro b hb
        rcases List.mem_cons.mp hb with rfl | hb2
        · exact hxy
        · exact le_trans (hy b hb2) hxy
      · rw [List.pairwise_cons]
        exact ⟨hy, hys⟩
    · rename_i hxy
      push_neg at hxy
      rw [List.pairwise_cons]
      refine ⟨?_, ih hys⟩
      intro b hb
      have hb3 := (insertByTime_perm x ys).mem_iff.mp hb
      rcases List.mem_cons.mp hb3 with rfl | hb2
      · exact le_of_lt hxy
      · exact hy b hb2

/-- The stable descending sort is sorted by descending timestamp. -/
theorem sortByTimeDesc_pairwise (l : List TweetData) :
    (sortByTimeDesc l).Pairwise (fun a b => b.core.createdAt ≤ a.core.createdAt) := by
  induction l with
  | nil => simp [sortByTimeDesc]
  | cons x xs ih =>
    have e : sortByTimeDesc (x :: xs) = insertByTime x (sortByTimeDesc xs) := rfl
    rw [e]
    exact insertByTime_pairwise x _ ih

/-- Insertion does not disturb the relative order of the elements
carrying any fixed timestamp: the stability of the sort. -/
theorem insertByTime_filter_key (x : TweetData) (k : Int) :
    ∀ (l : List TweetData),
      (insertByTime x l).filter (fun t => t.core.createdAt == k) =
        ((x :: l).filter (fun t => t.core.createdAt == k)) := by
  intro l
  induction l with
  | nil => rfl
  | cons y ys ih =>
    unfold insertByTime
    split
    · rfl
    · rename_i hxy
      push_neg at hxy
      by_cases hx : (x.core.createdAt == k) = true
      · have hxk : x.core.createdAt = k := by simpa using hx
        have hyk : (y.core.createdAt == k) = false := by
          rw [beq_eq_false_iff_ne]
          intro hyeq
          rw [hyeq, hxk] at hxy
          exact lt_irrefl k hxy
        simp only [List.filter_cons, hyk, hx, ih, if_false, if_true]
        simp [hyk, hx]
      · have hx2 : (x.core.createdAt == k) = false := by
          cases hb : (x.core.createdAt == k)
          · rfl
          · exact absurd hb hx
        simp only [List.filter_cons, hx2, ih]
        simp [hx2]

/-- The stable descending sort keeps equal-timestamp items in their
input order. -/
theorem sortByTimeDesc_filter_key (k : Int) (l : List TweetData) :
    (sortByTimeDesc l).filter (fun t => t.core.createdAt == k) =
      l.filter (fun t => t.core.createdAt == k) := by
  induction l with
  | nil => rfl
  | cons x xs ih =>
    have e : sortByTimeDesc (x :: xs) = insertByTime x (sortByTimeDesc xs) := rfl
    rw [e, insertByTime_filter_key]
    simp only [List.filter_cons, ih]

/-- validRaw splits into a truthy identifier plus a fully valid
nested thread. -/
theorem validRaw_intro : ∀ (r : RawTweetData),
    rawIdOk r = true → threadValid r = true → validRaw r = true := by
  intro r h1 h2
  cases r with
  | mk c th =>
    cases th with
    | none =>
      unfold validRaw
      exact h1
    | some l =>
      unfold validRaw
      rw [Bool.and_eq_true]
      refine ⟨h1, ?_⟩
      unfold threadValid at h2
      exact h2

/-- Core of the dedup-idempotence argument: when every identifier the
first pass accumulated is already in the second-pass store, the
second-pass store extends the first-pass store, and no raw tweet can
abort a batch (valid threads after optional expansion), the second
pass keeps nothing and leaves its store untouched. The two passes may
run at different ingestion instants. -/
theorem runLists_second_nil (cfg : Config) (now1 now2 : Int)
    (g : String → Option (List RawTweetData)) :
    ∀ (ls : List (Option (List RawTweetData))) (s1 s2 : List String),
      (∀ o ∈ ls, ∀ raws, o = some raws →
        ∀ r ∈ raws, threadValid (expandIf cfg g r) = true) →
      (∀ i, i ∈ s1 → i ∈ s2) →
      (∀ t ∈ (runLists cfg now1 g s1 ls).1, t.core.id ∈ s2) →
      runLists cfg now2 g s2 ls = ([], s2) := by
  intro ls
  induction ls with
  | nil =>
    intro s1 s2 _ _ _
    rfl
  | cons l rest ih =>
    intro s1 s2 hV hsub hids
    have e1 : (runLists cfg now1 g s1 (l :: rest)).1 =
        fetchListTweets cfg now1 g s1 l ++
          (runLists cfg now1 g (addIds s1 (fetchListTweets cfg now1 g s1 l)) rest).1 := rfl
    have hnil : fetchListTweets cfg now2 g s2 l = [] := by
      cases l with
      | none => rfl
      | some raws =>
        rw [List.eq_nil_iff_forall_not_mem]
        intro t ht
        obtain ⟨r, hr, hu, htr, hfl⟩ := mem_fetchListTweets cfg now2 g s2 raws t ht
        obtain ⟨hidok, hnotin2⟩ := unseenWithId_elim s2 r hu
        have hnotin1 : rawId r ∉ s1 := fun hmem => hnotin2 (hsub _ hmem)
        have hu1 : unseenWithId s1 r = true := unseenWithId_intro s1 r hidok hnotin1
        have hidokE : rawIdOk (expandIf cfg g r) = true := by
          unfold rawIdOk
          rw [expandIf_core]
          exact hidok
        have hvr : validRaw (expandIf cfg g r) = true :=
          validRaw_intro _ hidokE
            (hV (some raws) (List.mem_cons_self ..) raws rfl r hr)
        obtain ⟨t1, ht1⟩ := transformTweet_ok_of_validRaw now1 _ hvr
        have hfl1 : applyFilters cfg t1 = true := by
          obtain ⟨hfe, _⟩ := applyFilters_transform_indep cfg now1 now2 _ t1 t ht1 htr
          rw [hfe]
          exact hfl
        have hall : ∀ x ∈ expandedList cfg g (raws.filter (unseenWithId s1)),
            validRaw x = true := by
          intro x hx
          rw [expandedList_eq_map] at hx
          obtain ⟨r0, hr0, hre⟩ := List.mem_map.mp hx
          obtain ⟨hr0r, hr0u⟩ := List.mem_filter.mp hr0
          obtain ⟨hid0, _⟩ := unseenWithId_elim s1 r0 hr0u
          have hid0e : rawIdOk (expandIf cfg g r0) = true := by
            unfold rawIdOk
            rw [expandIf_core]
            exact hid0
          subst hre
          exact validRaw_intro _ hid0e
            (hV (some raws) (List.mem_cons_self ..) raws rfl r0 hr0r)
        have ht1mem : t1 ∈ fetchListTweets cfg now1 g s1 (some raws) :=
          fetchListTweets_mem_of cfg now1 g s1 raws r t1 hr hu1 hall ht1 hfl1
        have hins2 : t1.core.id ∈ s2 := by
          apply hids
          rw [e1]
          exact List.mem_append.mpr (Or.inl ht1mem)
        have hid1 : t1.core.id = rawId (expandIf cfg g r) :=
          (transformTweet_ok_id now1 _ t1 ht1).1
        have hideq : rawId (expandIf cfg g r) = rawId r := by
          unfold rawId
          rw [expandIf_core]
        rw [hid1, hideq] at hins2
        exact hnotin2 hins2
    have e2 : runLists cfg now2 g s2 (l :: rest) =
        (fetchListTweets cfg now2 g s2 l ++
          (runLists cfg now2 g (addIds s2 (fetchListTweets cfg now2 g s2 l)) rest).1,
         (runLists cfg now2 g (addIds s2 (fetchListTweets cfg now2 g s2 l)) rest).2) := rfl
    rw [e2, hnil]
    have hrest : runLists cfg now2 g s2 rest = ([], s2) := by
      apply ih (addIds s1 (fetchListTweets cfg now1 g s1 l)) s2
      · intro o ho raws hor r hrr
        exact hV o (List.mem_cons_of_mem _ ho) raws hor r hrr
      · intro i hi
        rcases (mem_addIds _ s1 i).mp hi with hi1 | ⟨t, htm, hti⟩
        · exact hsub i hi1
        · have : t.core.id ∈ s2 := by
            apply hids
            rw [e1]
            exact List.mem_append.mpr (Or.inl htm)
          rw [hti] at this
          exact this
      · intro t htm
        apply hids
        rw [e1]
        exact List.mem_append.mpr (Or.inr htm)
    have haddnil : addIds s2 ([] : List TweetData) = s2 := rfl
    rw [haddnil, hrest]
    rfl

/-- Unfolding a pass that is authenticated. -/
theorem processAllLists_ok (cfg : Config) (now : Int)
    (g : String → Option (List RawTweetData)) (st : ServiceState)
    (lists : List (Option (List RawTweetData))) (h : st.isLoggedIn = true) :
    processAllLists cfg now g st lists =
      ({ isLoggedIn := st.isLoggedIn,
         processedTweetIds := (runLists cfg now g st.processedTweetIds lists).2,
         savedFeed := some (((sortByTimeDesc
           (runLists cfg now g st.processedTweetIds lists).1).take cfg.maxEntries).map
             transformToRSSItem) },
       Except.ok
         { totalTweets := ((sortByTimeDesc
             (runLists cfg now g st.processedTweetIds lists).1).take cfg.maxEntries).length,
           feedItems := ((sortByTimeDesc
             (runLists cfg now g st.processedTweetIds lists).1).take cfg.maxEntries).map
               transformToRSSItem }) := by
  unfold processAllLists
  rw [h]
  simp

/-- A pass without authentication rejects and leaves the state
untouched. -/
theorem processAllLists_not_auth (cfg : Config) (now : Int)
    (g : String → Option (List RawTweetData)) (st : ServiceState)
    (lists : List (Option (List RawTweetData))) (h : st.isLoggedIn = false) :
    processAllLists cfg now g st lists =
      (st, Except.error "Twitter authentication required. Please check credentials and try again.") := by
  unfold processAllLists
  rw [h]
  simp

/-- C7: if the service is not authenticated, processAllLists rejects
immediately with the authentication-required error, and the service
state — dedup store and feed store included — is exactly the state
before the call: nothing was fetched, nothing was marked processed and
nothing was written to the feed slot. -/
theorem claim_auth_required (cfg : Config) (now : Int)
    (g : String → Option (List RawTweetData)) (st : ServiceState)
    (lists : List (Option (List RawTweetData))) (h : st.isLoggedIn = false) :
    processAllLists cfg now g st lists =
      (st, Except.error "Twitter authentication required. Please check credentials and try again.") :=
  processAllLists_not_auth cfg now g st lists h

/-- Witness for claim_auth_required at a concrete unauthenticated
state. -/
theorem claim_auth_required_witness :
    processAllLists cfgPlain 0 gNone
      { isLoggedIn := false, processedTweetIds := [], savedFeed := none } [] =
      ({ isLoggedIn := false, processedTweetIds := [], savedFeed := none },
       Except.error "Twitter authentication required. Please check credentials and try again.") :=
  claim_auth_required cfgPlain 0 gNone
    { isLoggedIn := false, processedTweetIds := [], savedFeed := none } [] rfl

/-- C6: applyFilters coincides with the declarative spec predicate
shouldKeepSpec: it returns false exactly when reposts are excluded and
the item is a repost, or replies are excluded and the item is a reply,
or the body is below the configured minimum length. The
characterizing disjunction is symmetric in its three parts, so the
evaluation order of the checks cannot change the outcome, and as a
pure function of configuration and item the predicate returns the same
result on every call. -/
theorem claim_filter_pure (cfg : Config) (t : TweetData) :
    (applyFilters cfg t = true ↔ shouldKeepSpec cfg t) ∧
    (applyFilters cfg t = false ↔
      ((cfg.filterRetweets = true ∧ t.core.isRetweet = true) ∨
       (cfg.filterReplies = true ∧ t.core.isReply = true) ∨
       t.core.text.length < cfg.minTweetLength)) := by
  cases hr : cfg.filterRetweets <;> cases hir : t.core.isRetweet <;>
    cases hp : cfg.filterReplies <;> cases hip : t.core.isReply <;>
      by_cases hlen : t.core.text.length < cfg.minTweetLength <;>
        simp [applyFilters, shouldKeepSpec, hr, hir, hp, hip, hlen]

/-- C3: a throwing fetch for one list is absorbed as zero items for
that list and the pass still completes: with list A yielding n
surviving unseen items and the fetch of list B throwing,
processAllLists resolves with totalTweets = n (when n is within the
entry cap) instead of propagating the error of B. -/
theorem claim_fetch_failure_absorbed (cfg : Config) (now : Int)
    (g : String → Option (List RawTweetData)) (st : ServiceState)
    (rawsA : List RawTweetData) (n : Nat)
    (hAuth : st.isLoggedIn = true)
    (hn : (fetchListTweets cfg now g st.processedTweetIds (some rawsA)).length = n)
    (hle : n ≤ cfg.maxEntries) :
    ∃ st2 res, processAllLists cfg now g st [some rawsA, none] = (st2, Except.ok res) ∧
      res.totalTweets = n := by
  rw [processAllLists_ok cfg now g st [some rawsA, none] hAuth]
  refine ⟨_, _, rfl, ?_⟩
  show ((sortByTimeDesc (runLists cfg now g st.processedTweetIds [some rawsA, none]).1).take
      cfg.maxEntries).length = n
  have eacc : (runLists cfg now g st.processedTweetIds [some rawsA, none]).1 =
      fetchListTweets cfg now g st.processedTweetIds (some rawsA) ++ ([] ++ []) := rfl
  rw [eacc, List.append_nil, List.append_nil]
  rw [List.length_take, (sortByTimeDesc_perm _).length_eq, hn]
  exact Nat.min_eq_right hle

/-- Witness for claim_fetch_failure_absorbed: three clean unseen items
in list A, list B throwing, totalTweets resolves to 3. -/
theorem claim_fetch_failure_absorbed_witness :
    (fetchListTweets cfgPlain 0 gNone []
      (some [simpleRaw "a1" "first" 3, simpleRaw "a2" "second" 2,
             simpleRaw "a3" "third" 1])).length = 3 ∧
    3 ≤ cfgPlain.maxEntries ∧
    ∃ st2 res,
      processAllLists cfgPlain 0 gNone stFresh
        [some [simpleRaw "a1" "first" 3, simpleRaw "a2" "second" 2,
               simpleRaw "a3" "third" 1], none] =
        (st2, Except.ok res) ∧ res.totalTweets = 3 :=
  ⟨rfl, by decide,
   claim_fetch_failure_absorbed cfgPlain 0 gNone stFresh
     [simpleRaw "a1" "first" 3, simpleRaw "a2" "second" 2, simpleRaw "a3" "third" 1]
     3 rfl rfl (by decide)⟩

/-- C2: a successful pass renders exactly the items accumulated across
all lists, reordered by a permutation of the accumulation that is
sorted by descending creation timestamp and preserves the relative
input order of items with any equal timestamp (a stable descending
sort), truncated to the first maxEntries entries and mapped to feed
items; totalTweets is the length of that truncation. -/
theorem claim_feed_sorted_capped (cfg : Config) (now : Int)
    (g : String → Option (List RawTweetData)) (st : ServiceState)
    (lists : List (Option (List RawTweetData))) (st2 : ServiceState) (res : PassResult)
    (h : processAllLists cfg now g st lists = (st2, Except.ok res)) :
    ∃ sorted : List TweetData,
      List.Perm sorted (runLists cfg now g st.processedTweetIds lists).1 ∧
      sorted.Pairwise (fun a b => b.core.createdAt ≤ a.core.createdAt) ∧
      (∀ k : Int, sorted.filter (fun t => t.core.createdAt == k) =
        ((runLists cfg now g st.processedTweetIds lists).1).filter
          (fun t => t.core.createdAt == k)) ∧
      res.feedItems = (sorted.take cfg.maxEntries).map transformToRSSItem ∧
      res.totalTweets = (sorted.take cfg.maxEntries).length := by
  have hL : st.isLoggedIn = true := by
    cases hb : st.isLoggedIn
    · rw [processAllLists_not_auth cfg now g st lists hb] at h
      injection h with h1 h2
      simp at h2
    · rfl
  rw [processAllLists_ok cfg now g st lists hL] at h
  injection h with h1 h2
  injection h2 with h3
  refine ⟨sortByTimeDesc (runLists cfg now g st.processedTweetIds lists).1,
    sortByTimeDesc_perm _, sortByTimeDesc_pairwise _,
    fun k => sortByTimeDesc_filter_key k _, ?_, ?_⟩
  · rw [← h3]
  · rw [← h3]

/-- Witness for claim_feed_sorted_capped: five unseen items with
distinct timestamps under a 2-entry cap produce exactly the two most
recent items, in descending order. -/
theorem claim_feed_sorted_capped_witness :
    processAllLists cfgCapTwo 0 gNone stFresh
      [some [simpleRaw "w3" "tweet three" 3, simpleRaw "w1" "tweet one" 1,
             simpleRaw "w5" "tweet five" 5, simpleRaw "w2" "tweet two" 2,
             simpleRaw "w4" "tweet four" 4]] =
      ({ isLoggedIn := true, processedTweetIds := ["w3", "w1", "w5", "w2", "w4"],
         savedFeed := some [transformToRSSItem (simpleTw "w5" "tweet five" 5),
                            transformToRSSItem (simpleTw "w4" "tweet four" 4)] },
       Except.ok { totalTweets := 2,
                   feedItems := [transformToRSSItem (simpleTw "w5" "tweet five" 5),
                                 transformToRSSItem (simpleTw "w4" "tweet four" 4)] }) ∧
    ∃ sorted : List TweetData,
      List.Perm sorted (runLists cfgCapTwo 0 gNone stFresh.processedTweetIds
        [some [simpleRaw "w3" "tweet three" 3, simpleRaw "w1" "tweet one" 1,
               simpleRaw "w5" "tweet five" 5, simpleRaw "w2" "tweet two" 2,
               simpleRaw "w4" "tweet four" 4]]).1 ∧
      sorted.Pairwise (fun a b => b.core.createdAt ≤ a.core.createdAt) ∧
      (∀ k : Int, sorted.filter (fun t => t.core.createdAt == k) =
        ((runLists cfgCapTwo 0 gNone stFresh.processedTweetIds
          [some [simpleRaw "w3" "tweet three" 3, simpleRaw "w1" "tweet one" 1,
                 simpleRaw "w5" "tweet five" 5, simpleRaw "w2" "tweet two" 2,
                 simpleRaw "w4" "tweet four" 4]]).1).filter
            (fun t => t.core.createdAt == k)) ∧
      ({ totalTweets := 2,
         feedItems := [transformToRSSItem (simpleTw "w5" "tweet five" 5),
                       transformToRSSItem (simpleTw "w4" "tweet four" 4)] } : PassResult).feedItems =
          (sorted.take cfgCapTwo.maxEntries).map transformToRSSItem ∧
      ({ totalTweets := 2,
         feedItems := [transformToRSSItem (simpleTw "w5" "tweet five" 5),
                       transformToRSSItem (simpleTw "w4" "tweet four" 4)] } : PassResult).totalTweets =
          (sorted.take cfgCapTwo.maxEntries).length :=
  ⟨rfl,
   claim_feed_sorted_capped cfgCapTwo 0 gNone stFresh
     [some [simpleRaw "w3" "tweet three" 3, simpleRaw "w1" "tweet one" 1,
            simpleRaw "w5" "tweet five" 5, simpleRaw "w2" "tweet two" 2,
            simpleRaw "w4" "tweet four" 4]]
     { isLoggedIn := true, processedTweetIds := ["w3", "w1", "w5", "w2", "w4"],
       savedFeed := some [transformToRSSItem (simpleTw "w5" "tweet five" 5),
                          transformToRSSItem (simpleTw "w4" "tweet four" 4)] }
     { totalTweets := 2,
       feedItems := [transformToRSSItem (simpleTw "w5" "tweet five" 5),
                     transformToRSSItem (simpleTw "w4" "tweet four" 4)] }
     rfl⟩


/-- C4 counterexample: the rendered title also carries the author
handle prefix, so a 104-character body under handle alice renders a
title of length 111, breaking the claimed 103-character bound; and a
103-character body that itself ends in three dots is longer than 100
characters yet still appears untruncated inside its rendered title,
breaking the only-if direction of the containment condition. -/
theorem claim_title_bound_cex :
    (rssTitle tAlice104).length = 111 ∧ ¬ (rssTitle tAlice104).length ≤ 103 ∧
    tDots103.core.text.length = 103 ∧ ¬ tDots103.core.text.length ≤ 100 ∧
    tDots103.core.text.data <:+: (rssTitle tDots103).data := by
  have e1 : (rssTitle tAlice104).length = 111 := rfl
  have e2 : tDots103.core.text.length = 103 := rfl
  refine ⟨e1, ?_, e2, ?_, ?_⟩
  · rw [e1]
    omega
  · rw [e2]
    omega
  · exact ⟨"@unknown: ".data, [], rfl⟩

/-- C4 amended: the rendered title is the handle prefix (at-sign,
handle, colon, space) followed by at most 103 body-derived characters,
so its length is bounded by the handle length plus 106; and whenever
the body has at most 100 characters the title is exactly the handle
prefix followed by the untruncated body. -/
theorem claim_title_bound (t : TweetData) :
    (rssTitle t).length ≤ t.core.username.length + 106 ∧
    (t.core.text.length ≤ 100 →
      rssTitle t = "@" ++ t.core.username ++ ": " ++ t.core.text) := by
  constructor
  · have hlen : (rssTitle t).length =
        "@".length + t.core.username.length + ": ".length +
        (t.core.text.data.take 100).length +
        (if t.core.text.length > 100 then "..." else "").length := by
      unfold rssTitle truncate100
      rw [String.length_append, String.length_append, String.length_append,
        String.length_append]
      rfl
    rw [hlen]
    have h2 : (t.core.text.data.take 100).length ≤ 100 := by
      rw [List.length_take]
      exact Nat.min_le_left _ _
    have h3 : (if t.core.text.length > 100 then "..." else "").length ≤ 3 := by
      split
      · decide
      · decide
    have h4 : "@".length = 1 := rfl
    have h5 : ": ".length = 2 := rfl
    rw [h4, h5]
    omega
  · intro hle
    unfold rssTitle truncate100
    have h1 : t.core.text.data.take 100 = t.core.text.data :=
      List.take_of_length_le hle
    rw [h1]
    have h2 : ¬ t.core.text.length > 100 := by omega
    rw [if_neg h2]
    have h3 : String.mk t.core.text.data = t.core.text := rfl
    rw [h3, String.append_empty]

/-- Witness for claim_title_bound at a concrete short-bodied tweet. -/
theorem claim_title_bound_witness :
    (simpleTw "w" "short body" 1).core.text.length ≤ 100 ∧
    rssTitle (simpleTw "w" "short body" 1) =
      "@" ++ (simpleTw "w" "short body" 1).core.username ++ ": " ++
        (simpleTw "w" "short body" 1).core.text ∧
    (rssTitle (simpleTw "w" "short body" 1)).length ≤
      (simpleTw "w" "short body" 1).core.username.length + 106 :=
  ⟨by
    have e : (simpleTw "w" "short body" 1).core.text.length = 10 := rfl
    rw [e]
    omega,
   (claim_title_bound (simpleTw "w" "short body" 1)).2 (by
    have e : (simpleTw "w" "short body" 1).core.text.length = 10 := rfl
    rw [e]
    omega),
   (claim_title_bound (simpleTw "w" "short body" 1)).1⟩

/-- C5 counterexample: a raw tweet that has a truthy identifier but
carries an identifier-less nested thread entry fails normalization as
a whole, so having an identifier does not suffice for transformTweet
to succeed. -/
theorem claim_normalize_defaults_cex :
    rawIdOk rawBadThread = true ∧
    transformTweet 0 rawBadThread = Except.error "Tweet missing required ID field" :=
  ⟨rfl, rfl⟩

/-- C5 amended: normalization of a raw tweet without a truthy
identifier fails with the invalid-item error; it succeeds for every
raw tweet whose own identifier and all transitive thread identifiers
are present; and a raw tweet carrying nothing but an identifier
receives exactly the documented defaults — empty text, unknown
handle, unverified, repost and reply flags false, zero engagement
counters, and the ingestion instant as creation timestamp. -/
theorem claim_normalize_defaults :
    (∀ (now : Int) (c : RawCore) (th : Option (List RawTweetData)),
      (c.id = none ∨ c.id = some "") →
      transformTweet now (.mk c th) = Except.error "Tweet missing required ID field") ∧
    (∀ (now : Int) (r : RawTweetData), validRaw r = true →
      ∃ t, transformTweet now r = Except.ok t) ∧
    (∀ (now : Int) (i : String), (i == "") = false →
      transformTweet now (.mk { emptyRawCore with id := some i } none) =
        Except.ok (.mk
          { id := i, text := "", username := "unknown", name := "Unknown User",
            verified := false, createdAt := now,
            url := "https://twitter.com/unknown/status/" ++ i,
            isRetweet := false, isReply := false, replyToTweetId := none,
            retweetedTweet := none, quotedTweet := none, media := [],
            likes := 0, retweets := 0, replies := 0 } none)) := by
  refine ⟨?_, fun now r h => transformTweet_ok_of_validRaw now r h, ?_⟩
  · intro now c th hid
    unfold transformTweet
    rcases hid with hid | hid
    · rw [hid]
    · rw [hid]
      rfl
  · intro now i hi
    unfold transformTweet
    simp only [hi]
    rfl

/-- Witness for claim_normalize_defaults: the error case, a fully
valid raw tweet, and the all-defaults normalization at identifier 42
and ingestion instant 7. -/
theorem claim_normalize_defaults_witness :
    transformTweet 7 (.mk emptyRawCore none) = Except.error "Tweet missing required ID field" ∧
    (∃ t, transformTweet 7 (simpleRaw "w" "hello" 1) = Except.ok t) ∧
    transformTweet 7 (.mk { emptyRawCore with id := some "42" } none) =
      Except.ok (.mk
        { id := "42", text := "", username := "unknown", name := "Unknown User",
          verified := false, createdAt := 7,
          url := "https://twitter.com/unknown/status/" ++ "42",
          isRetweet := false, isReply := false, replyToTweetId := none,
          retweetedTweet := none, quotedTweet := none, media := [],
          likes := 0, retweets := 0, replies := 0 } none) :=
  ⟨claim_normalize_defaults.1 7 emptyRawCore none (Or.inl rfl),
   claim_normalize_defaults.2.1 7 (simpleRaw "w" "hello" 1) rfl,
   claim_normalize_defaults.2.2 7 "42" rfl⟩

/-- C1 counterexample: with an unchanged upstream, the first pass
aborts its first list on the malformed thread entry of tweet b
(keeping and marking nothing from that list) yet publishes the clean
duplicate of b from the second list; on the second pass b is
deduplicated away in the first list, the batch no longer aborts, and
tweet c is published for the first time: both passes complete and the
second yields one new item, not zero. -/
theorem claim_dedup_second_pass_cex :
    (processAllLists cfgPlain 0 gNone stFresh listsPair).2.map (fun r => r.totalTweets) =
      Except.ok 1 ∧
    ((processAllLists cfgPlain 1 gNone
      (processAllLists cfgPlain 0 gNone stFresh listsPair).1 listsPair).2.map
        (fun r => r.totalTweets)) = Except.ok 1 :=
  ⟨rfl, rfl⟩

/-- C1 amended: provided no fetched raw tweet can abort a
normalization batch (after optional expansion every nested thread
entry carries an identifier), running processAllLists twice in
succession over an unchanged upstream yields zero new items on the
second pass: every candidate is rejected by the dedup-store membership
test or by the same filter outcome as in the first pass, and the dedup
store is left exactly as the first pass left it (the feed slot is
overwritten with an empty document). -/
theorem claim_dedup_second_pass (cfg : Config) (now1 now2 : Int)
    (g : String → Option (List RawTweetData)) (st : ServiceState)
    (lists : List (Option (List RawTweetData)))
    (hAuth : st.isLoggedIn = true)
    (hV : ValidLists cfg g lists) :
    (∃ res1, (processAllLists cfg now1 g st lists).2 = Except.ok res1) ∧
    ∃ res2,
      (processAllLists cfg now2 g (processAllLists cfg now1 g st lists).1 lists).2 =
        Except.ok res2 ∧
      res2.totalTweets = 0 ∧ res2.feedItems = [] ∧
      (processAllLists cfg now2 g (processAllLists cfg now1 g st lists).1 lists).1.processedTweetIds =
        (processAllLists cfg now1 g st lists).1.processedTweetIds := by
  have h1 := processAllLists_ok cfg now1 g st lists hAuth
  have hnil : runLists cfg now2 g (runLists cfg now1 g st.processedTweetIds lists).2 lists =
      ([], (runLists cfg now1 g st.processedTweetIds lists).2) := by
    apply runLists_second_nil cfg now1 now2 g lists st.processedTweetIds _ hV
    · intro i hi
      exact (runLists_store_mem cfg now1 g lists st.processedTweetIds i).mpr (Or.inl hi)
    · intro t ht
      exact (runLists_store_mem cfg now1 g lists st.processedTweetIds t.core.id).mpr
        (Or.inr ⟨t, ht, rfl⟩)
  have h2 := processAllLists_ok cfg now2 g
    { isLoggedIn := st.isLoggedIn,
      processedTweetIds := (runLists cfg now1 g st.processedTweetIds lists).2,
      savedFeed := some (((sortByTimeDesc
        (runLists cfg now1 g st.processedTweetIds lists).1).take cfg.maxEntries).map
          transformToRSSItem) } lists hAuth
  constructor
  · exact ⟨_, by rw [h1]⟩
  · rw [h1]
    dsimp only
    rw [h2]
    dsimp only
    rw [hnil]
    have enil : sortByTimeDesc ([] : List TweetData) = [] := rfl
    refine ⟨_, rfl, ?_, ?_, ?_⟩
    · dsimp only
      rw [enil, List.take_nil]
      rfl
    · dsimp only
      rw [enil, List.take_nil]
      rfl
    · dsimp only

/-- Witness for claim_dedup_second_pass: one clean list plus one
throwing list, run twice from a fresh authenticated state. -/
theorem claim_dedup_second_pass_witness :
    (∃ res1, (processAllLists cfgPlain 0 gNone stFresh
      [some [simpleRaw "a1" "first" 3], none]).2 = Except.ok res1) ∧
    ∃ res2,
      (processAllLists cfgPlain 1 gNone
        (processAllLists cfgPlain 0 gNone stFresh [some [simpleRaw "a1" "first" 3], none]).1
        [some [simpleRaw "a1" "first" 3], none]).2 = Except.ok res2 ∧
      res2.totalTweets = 0 ∧ res2.feedItems = [] ∧
      (processAllLists cfgPlain 1 gNone
        (processAllLists cfgPlain 0 gNone stFresh [some [simpleRaw "a1" "first" 3], none]).1
        [some [simpleRaw "a1" "first" 3], none]).1.processedTweetIds =
        (processAllLists cfgPlain 0 gNone stFresh
          [some [simpleRaw "a1" "first" 3], none]).1.processedTweetIds :=
  claim_dedup_second_pass cfgPlain 0 1 gNone stFresh
    [some [simpleRaw "a1" "first" 3], none] rfl
    (by
      intro o ho raws hor r hr
      simp only [List.mem_cons, List.not_mem_nil, or_false] at ho
      rcases ho with ho | ho
      · subst ho
        injection hor with e
        subst e
        simp only [List.mem_singleton] at hr
        subst hr
        rfl
      · subst ho
        simp at hor)

/-- C9 counterexample: tweet c has a truthy identifier, is unseen, and
its normalized form passes every filter, yet because its batch aborts
on the malformed sibling b the list returns nothing and the pass marks
nothing: the set of identifiers added to the store is not the set of
items that had an identifier, were unseen and survived the filters. -/
theorem claim_dedup_marks_cex :
    unseenWithId [] rawGoodC = true ∧
    transformTweet 0 rawGoodC = Except.ok (simpleTw "c" "good tweet c" 10) ∧
    applyFilters cfgPlain (simpleTw "c" "good tweet c" 10) = true ∧
    fetchListTweets cfgPlain 0 gNone [] (some [rawBadThread, rawGoodC]) = [] ∧
    (runLists cfgPlain 0 gNone [] [some [rawBadThread, rawGoodC]]).2 = [] :=
  ⟨rfl, rfl, rfl, rfl, rfl⟩

/-- C9 amended: a pass adds to the dedup store exactly the
identifiers of the tweets fetchListTweets returned; every returned
tweet passed the filter chain and stems from a raw tweet with a truthy
identifier that was not in the store, so filter-rejected items are
never marked; and when no batch aborts on a normalization error the
returned tweets are exactly the normalizations of the pre-filtered raw
tweets that pass the filters. -/
theorem claim_dedup_marks (cfg : Config) (now : Int)
    (g : String → Option (List RawTweetData)) :
    (∀ (ls : List (Option (List RawTweetData))) (s : List String) (i : String),
      i ∈ (runLists cfg now g s ls).2 ↔
        i ∈ s ∨ ∃ t ∈ (runLists cfg now g s ls).1, t.core.id = i) ∧
    (∀ (store : List String) (raws : List RawTweetData) (t : TweetData),
      t ∈ fetchListTweets cfg now g store (some raws) →
        applyFilters cfg t = true ∧ t.core.id ∉ store ∧
        ∃ r ∈ raws, rawIdOk r = true ∧ rawId r = t.core.id) ∧
    (∀ (store : List String) (raws : List RawTweetData) (r : RawTweetData) (t : TweetData),
      (∀ x ∈ raws, threadValid (expandIf cfg g x) = true) →
      r ∈ raws → unseenWithId store r = true →
      transformTweet now (expandIf cfg g r) = Except.ok t →
      applyFilters cfg t = true →
      t ∈ fetchListTweets cfg now g store (some raws)) := by
  refine ⟨fun ls s i => runLists_store_mem cfg now g ls s i, ?_, ?_⟩
  · intro store raws t ht
    obtain ⟨r, hr, hu, htr, hfl⟩ := mem_fetchListTweets cfg now g store raws t ht
    obtain ⟨hidok, hnot⟩ := unseenWithId_elim store r hu
    obtain ⟨hid, _⟩ := transformTweet_ok_id now _ t htr
    have hre : rawId (expandIf cfg g r) = rawId r := by
      unfold rawId
      rw [expandIf_core]
    rw [hre] at hid
    refine ⟨hfl, ?_, r, hr, hidok, hid.symm⟩
    rw [hid]
    exact hnot
  · intro store raws r t hTv hr hu htr hfl
    refine fetchListTweets_mem_of cfg now g store raws r t hr hu ?_ htr hfl
    intro x hx
    rw [expandedList_eq_map] at hx
    obtain ⟨r0, hr0, hre⟩ := List.mem_map.mp hx
    obtain ⟨hr0r, hr0u⟩ := List.mem_filter.mp hr0
    obtain ⟨hid0, _⟩ := unseenWithId_elim store r0 hr0u
    have hid0e : rawIdOk (expandIf cfg g r0) = true := by
      unfold rawIdOk
      rw [expandIf_core]
      exact hid0
    subst hre
    exact validRaw_intro _ hid0e (hTv r0 hr0r)

/-- Witness for claim_dedup_marks at a one-list, one-tweet pass. -/
theorem claim_dedup_marks_witness :
    ("a1" ∈ (runLists cfgPlain 0 gNone [] [some [simpleRaw "a1" "first" 3]]).2 ↔
      "a1" ∈ ([] : List String) ∨
        ∃ t ∈ (runLists cfgPlain 0 gNone [] [some [simpleRaw "a1" "first" 3]]).1,
          t.core.id = "a1") ∧
    (applyFilters cfgPlain (simpleTw "a1" "first" 3) = true ∧
      (simpleTw "a1" "first" 3).core.id ∉ ([] : List String) ∧
      ∃ r ∈ [simpleRaw "a1" "first" 3], rawIdOk r = true ∧
        rawId r = (simpleTw "a1" "first" 3).core.id) ∧
    simpleTw "a1" "first" 3 ∈
      fetchListTweets cfgPlain 0 gNone [] (some [simpleRaw "a1" "first" 3]) :=
  ⟨(claim_dedup_marks cfgPlain 0 gNone).1 [some [simpleRaw "a1" "first" 3]] [] "a1",
   (claim_dedup_marks cfgPlain 0 gNone).2.1 [] [simpleRaw "a1" "first" 3]
     (simpleTw "a1" "first" 3)
     (by
       have e : fetchListTweets cfgPlain 0 gNone [] (some [simpleRaw "a1" "first" 3]) =
           [simpleTw "a1" "first" 3] := rfl
       rw [e]
       exact List.mem_singleton.mpr rfl),
   (claim_dedup_marks cfgPlain 0 gNone).2.2 [] [simpleRaw "a1" "first" 3]
     (simpleRaw "a1" "first" 3) (simpleTw "a1" "first" 3)
     (by
       intro x hx
       simp only [List.mem_singleton] at hx
       subst hx
       rfl)
     (List.mem_singleton.mpr rfl) rfl rfl rfl⟩

/-- C10 counterexample: a raw tweet with a truthy identifier but an
identifier-less nested thread entry survives the pre-filter, reaches
the normalizer and takes its missing-identifier error branch; the
thrown error is caught and the whole list collapses to an empty
result, so the branch is reachable and the drop is batch-wide rather
than per item. -/
theorem claim_prefilter_cex :
    [rawBadThread].filter (unseenWithId []) = [rawBadThread] ∧
    transformThreadList 0 (expandedList cfgPlain gNone ([rawBadThread].filter (unseenWithId []))) =
      Except.error "Tweet missing required ID field" ∧
    fetchListTweets cfgPlain 0 gNone [] (some [rawBadThread]) = [] :=
  ⟨rfl, rfl, rfl⟩

/-- C10 amended: every top-level raw tweet without a truthy
identifier is removed by the pre-filter and never reaches the
normalizer; and when all pre-filtered tweets also carry fully valid
thread entries after optional expansion, the batch normalizes without
error and fetchListTweets returns its filtered normalizations — the
missing-identifier branch is reachable only through nested thread
entries, and even then fetchListTweets absorbs the thrown error into
an empty result instead of failing. -/
theorem claim_prefilter (cfg : Config) (now : Int)
    (g : String → Option (List RawTweetData)) (store : List String)
    (raws : List RawTweetData) :
    (∀ r ∈ raws.filter (unseenWithId store), rawIdOk r = true) ∧
    ((∀ r ∈ raws, threadValid (expandIf cfg g r) = true) →
      ∃ ts, transformThreadList now (expandedList cfg g (raws.filter (unseenWithId store))) =
          Except.ok ts ∧
        fetchListTweets cfg now g store (some raws) = ts.filter (applyFilters cfg)) := by
  constructor
  · intro r hr
    obtain ⟨_, hu⟩ := List.mem_filter.mp hr
    exact (unseenWithId_elim store r hu).1
  · intro hTv
    have hv : validList (expandedList cfg g (raws.filter (unseenWithId store))) = true := by
      have hstep : ∀ (xs : List RawTweetData), (∀ x ∈ xs, validRaw x = true) →
          validList xs = true := by
        intro xs
        induction xs with
        | nil => intro _; rfl
        | cons x xs ih =>
          intro hx
          unfold validList
          rw [Bool.and_eq_true]
          exact ⟨hx x (List.mem_cons_self ..),
            ih fun y hy => hx y (List.mem_cons_of_mem _ hy)⟩
      apply hstep
      intro x hx
      rw [expandedList_eq_map] at hx
      obtain ⟨r0, hr0, hre⟩ := List.mem_map.mp hx
      obtain ⟨hr0r, hr0u⟩ := List.mem_filter.mp hr0
      obtain ⟨hid0, _⟩ := unseenWithId_elim store r0 hr0u
      have hid0e : rawIdOk (expandIf cfg g r0) = true := by
        unfold rawIdOk
        rw [expandIf_core]
        exact hid0
      subst hre
      exact validRaw_intro _ hid0e (hTv r0 hr0r)
    obtain ⟨ts, hts⟩ := transformThreadList_ok_of_validList now _ hv
    refine ⟨ts, hts, ?_⟩
    show keptOrEmpty cfg (transformThreadList now
      (expandedList cfg g (raws.filter (unseenWithId store)))) = ts.filter (applyFilters cfg)
    rw [hts]
    rfl

/-- Witness for claim_prefilter: a payload holding one identifier-less
raw tweet and one clean tweet; the pre-filter drops the former and the
batch normalizes the latter. -/
theorem claim_prefilter_witness :
    (∀ r ∈ [RawTweetData.mk emptyRawCore none, simpleRaw "a1" "first" 3].filter
        (unseenWithId []), rawIdOk r = true) ∧
    ∃ ts, transformThreadList 0 (expandedList cfgPlain gNone
        ([RawTweetData.mk emptyRawCore none, simpleRaw "a1" "first" 3].filter
          (unseenWithId []))) = Except.ok ts ∧
      fetchListTweets cfgPlain 0 gNone []
        (some [RawTweetData.mk emptyRawCore none, simpleRaw "a1" "first" 3]) =
        ts.filter (applyFilters cfgPlain) :=
  ⟨(claim_prefilter cfgPlain 0 gNone [] [RawTweetData.mk emptyRawCore none, simpleRaw "a1" "first" 3]).1,
   (claim_prefilter cfgPlain 0 gNone [] [RawTweetData.mk emptyRawCore none, simpleRaw "a1" "first" 3]).2
     (by
       intro r hr
       simp only [List.mem_cons, List.not_mem_nil, or_false] at hr
       rcases hr with hr | hr
       · subst hr
         rfl
       · subst hr
         rfl)⟩

/-- First-occurrence replacement at an exact prefix occurrence. -/
theorem lReplaceFirst_head_occurrence (pat rest rep : List Char) (h : pat ≠ []) :
    lReplaceFirst (pat ++ rest) pat rep = rep ++ rest := by
  cases pat with
  | nil => exact absurd rfl h
  | cons p ps =>
    have e : (p :: ps) ++ rest = p :: (ps ++ rest) := rfl
    rw [e]
    unfold lReplaceFirst
    have hpre : (p :: ps).isPrefixOf (p :: (ps ++ rest)) = true := by
      rw [ List.isPrefixOf_iff_prefix]
      exact ⟨rest, rfl⟩
    rw [if_pos hpre]
    have e2 : p :: (ps ++ rest) = (p :: ps) ++ rest := rfl
    rw [e2, List.drop_left]

/-- Stripping the Bearer scheme from a well-formed Bearer header
returns the carried token. -/
theorem replaceFirst_bearer (tok : String) :
    replaceFirst ("Bearer " ++ tok) "Bearer " "" = tok := by
  unfold replaceFirst
  rw [String.data_append]
  rw [lReplaceFirst_head_occurrence "Bearer ".data tok.data "".data (by decide)]
  rfl

/-- C8 counterexample: with the token secret configured, a request to
a non-health path whose Authorization header is the bare string secret
— not a Bearer credential — is admitted by the gate, so admission is
not exactly health-path-or-matching-bearer-token. -/
theorem claim_gate_cex :
    gate (some "secret") { path := "/rss", authorization := some "secret" } = GateResult.next ∧
    ¬ gateSpecAdmits "secret" { path := "/rss", authorization := some "secret" } := by
  refine ⟨rfl, ?_⟩
  intro h
  rcases h with h | h
  · exact absurd h (by decide)
  · unfold carriesBearerToken at h
    exact absurd h (by decide)

/-- C8 amended: the gate admits everything when no token is
configured, and likewise when the configured token is empty; with a
non-empty token it admits exactly the health path and requests whose
Authorization header equals the token after stripping the first
occurrence of the Bearer prefix — so a proper Bearer header is always
admitted, but the bare token is admitted as well — and every
non-admitted request is answered with status 401; the health route
itself always responds healthy with the current timestamp. -/
theorem claim_gate :
    (∀ req : HttpRequest, gate none req = GateResult.next) ∧
    (∀ req : HttpRequest, gate (some "") req = GateResult.next) ∧
    (∀ (tok : String) (req : HttpRequest), tok ≠ "" →
      (gate (some tok) req = GateResult.next ↔
        (req.path = "/health" ∨
          replaceFirst (req.authorization.getD "") "Bearer " "" = tok))) ∧
    (∀ (tok : String) (req : HttpRequest), tok ≠ "" →
      gate (some tok) req ≠ GateResult.next →
      gate (some tok) req = GateResult.unauthorized 401) ∧
    (∀ (tok : String) (req : HttpRequest), tok ≠ "" → carriesBearerToken tok req →
      gate (some tok) req = GateResult.next) ∧
    (∀ now : Int, (healthHandler now).status = "healthy" ∧ (healthHandler now).timestamp = now) := by
  have hgate : ∀ (tok : String) (req : HttpRequest), tok ≠ "" →
      gate (some tok) req =
        (if req.path == "/health" then GateResult.next
         else if replaceFirst (req.authorization.getD "") "Bearer " "" == tok then
           GateResult.next
         else GateResult.unauthorized 401) := by
    intro tok req htok
    have ht : (tok == "") = false := by
      rw [beq_eq_false_iff_ne]
      exact htok
    unfold gate
    have e : ((some tok).getD "" == "") = false := ht
    rw [e]
    rw [Bool.false_or]
    by_cases hp : (req.path == "/health") = true
    · rw [if_pos hp, if_pos hp]
    · rw [if_neg hp, if_neg hp]
      rfl
  refine ⟨fun req => rfl, fun req => rfl, ?_, ?_, ?_, fun now => ⟨rfl, rfl⟩⟩
  · intro tok req htok
    rw [hgate tok req htok]
    by_cases hp : req.path = "/health"
    · have hp2 : (req.path == "/health") = true := by
        rw [beq_iff_eq]
        exact hp
      rw [if_pos hp2]
      simp [hp]
    · have hp2 : (req.path == "/health") = false := by
        rw [beq_eq_false_iff_ne]
        exact hp
      rw [hp2]
      simp only [Bool.false_eq_true, if_false]
      by_cases hr : replaceFirst (req.authorization.getD "") "Bearer " "" = tok
      · have hr2 : (replaceFirst (req.authorization.getD "") "Bearer " "" == tok) = true := by
          rw [beq_iff_eq]
          exact hr
        rw [if_pos hr2]
        simp [hp, hr]
      · have hr2 : (replaceFirst (req.authorization.getD "") "Bearer " "" == tok) = false := by
          rw [beq_eq_false_iff_ne]
          exact hr
        rw [hr2]
        simp [hp, hr]
  · intro tok req htok hne
    rw [hgate tok req htok] at hne ⊢
    by_cases hp : (req.path == "/health") = true
    · rw [if_pos hp] at hne
      exact absurd rfl hne
    · rw [if_neg hp] at hne ⊢
      by_cases hr : (replaceFirst (req.authorization.getD "") "Bearer " "" == tok) = true
      · rw [if_pos hr] at hne
        exact absurd rfl hne
      · rw [if_neg hr]
  · intro tok req htok hb
    rw [hgate tok req htok]
    unfold carriesBearerToken at hb
    rw [hb]
    have e : (some ("Bearer " ++ tok)).getD "" = "Bearer " ++ tok := rfl
    rw [e, replaceFirst_bearer]
    have e2 : (tok == tok) = true := by
      rw [beq_iff_eq]
    rw [if_pos e2]
    split
    · rfl
    · rfl

/-- Witness for claim_gate: no token configured admits a plain
request; a proper Bearer header for token tok is admitted; a request
without credentials is answered 401; health answers healthy. -/
theorem claim_gate_witness :
    gate none { path := "/rss", authorization := none } = GateResult.next ∧
    gate (some "tok") { path := "/rss", authorization := some "Bearer tok" } = GateResult.next ∧
    gate (some "tok") { path := "/rss", authorization := none } = GateResult.unauthorized 401 ∧
    (healthHandler 5).status = "healthy" ∧ (healthHandler 5).timestamp = 5 :=
  ⟨claim_gate.1 { path := "/rss", authorization := none },
   claim_gate.2.2.2.2.1 "tok" { path := "/rss", authorization := some "Bearer tok" }
     (by decide) rfl,
   claim_gate.2.2.2.1 "tok" { path := "/rss", authorization := none } (by decide) (by decide),
   claim_gate.2.2.2.2.2 5⟩
